import Mathlib

set_option maxHeartbeats 2000000
set_option maxRecDepth 8000

/-!
Verification of the SimpleLang compiler (src/compiler.c): a one-pass
lexer + recursive-descent parser + code generator translating a minimal
imperative language into accumulator-machine assembly.  The definitions
below are a shallow embedding of the C source: the global compiler state
(symbol table, counters, pushback slot, output buffer) becomes an explicit
state record threaded through every function, `exit(1)` becomes an
`Except` error, and the unbounded C recursion becomes fuel-indexed
recursion (`CompErr.fuelOut` marks fuel exhaustion, which never occurs on
terminating runs given enough fuel).
-/

namespace SimpleLang

/-- Token types of the lexer, mirroring the C enum `TokenType`. -/
inductive TokenType where
  | INT | IDENTIFIER | NUMBER | ASSIGN
  | PLUS | MINUS | IF | EQUAL
  | LPAREN | RPAREN | LBRACE | RBRACE | SEMICOLON
  | EOF | UNKNOWN
deriving DecidableEq, Repr

/-- A lexical token: its type and the literal text that produced it
(truncated to `MAX_TOKEN_LEN - 1` characters by the lexer). -/
structure Token where
  type : TokenType
  text : String
deriving DecidableEq, Repr

/-- Fatal compiler outcomes.  In the C source both syntax errors and
capacity errors print a message and call `exit(1)`; `fuelOut` is the
artifact of fuel-indexed recursion, not a C behaviour. -/
inductive CompErr where
  | syntaxError
  | capacityError
  | fuelOut
deriving DecidableEq, Repr

/-- C constant `MAX_TOKEN_LEN` (maximum length of a token buffer). -/
def MAX_TOKEN_LEN : Nat := 100

/-- C constant `MAX_VARS` (maximum number of variables). -/
def MAX_VARS : Nat := 100

/-- C constant `MAX_CODE_LINES` (maximum lines of assembly output). -/
def MAX_CODE_LINES : Nat := 1000

/-- The global compiler state of the C program: remaining input characters
(the `FILE*` position), the one-token pushback slot (`hasToken` and
`currentToken`), the symbol table `vars` in insertion order, the counters
`currentAddress` and `labelCount`, and the output buffer `assembly`. -/
structure St where
  input : List Char
  pushback : Option Token
  vars : List (String × Nat)
  currentAddress : Nat
  labelCount : Nat
  asm : List String
deriving DecidableEq, Repr

/-- Fresh compiler state on a given source text: empty symbol table,
address counter 16, label counter 0, empty output. -/
def initSt (src : String) : St :=
  { input := src.data, pushback := none, vars := [],
    currentAddress := 16, labelCount := 0, asm := [] }

/-- The single-character token classification of the C `switch` (the `=`
case is handled separately because it needs one character of lookahead). -/
def singleType (c : Char) : TokenType :=
  if c = '+' then TokenType.PLUS
  else if c = '-' then TokenType.MINUS
  else if c = '(' then TokenType.LPAREN
  else if c = ')' then TokenType.RPAREN
  else if c = '\x7b' then TokenType.LBRACE
  else if c = '\x7d' then TokenType.RBRACE
  else if c = ';' then TokenType.SEMICOLON
  else TokenType.UNKNOWN

/-- C `getNextToken`: return the pushed-back token if present, otherwise
skip whitespace and scan an identifier/keyword, a number, `==`/`=`, or a
single-character token.  Identifier and number spellings are truncated to
the first `MAX_TOKEN_LEN - 1` characters (the first character is stored
unconditionally, later ones only while `len < MAX_TOKEN_LEN - 1`), but all
alphanumeric (resp. digit) characters are consumed from the input. -/
def getNextToken (s : St) : Token × St :=
  match s.pushback with
  | some t => (t, { s with pushback := none })
  | none =>
    match s.input.dropWhile Char.isWhitespace with
    | [] => ({ type := TokenType.EOF, text := "" }, { s with input := [] })
    | c :: cs =>
      if c.isAlpha then
        let body := cs.takeWhile Char.isAlphanum
        let text := (c :: body.take (MAX_TOKEN_LEN - 2)).asString
        ({ type := if text = "int" then TokenType.INT
                   else if text = "if" then TokenType.IF
                   else TokenType.IDENTIFIER,
           text := text },
         { s with input := cs.dropWhile Char.isAlphanum })
      else if c.isDigit then
        let body := cs.takeWhile Char.isDigit
        ({ type := TokenType.NUMBER,
           text := (c :: body.take (MAX_TOKEN_LEN - 2)).asString },
         { s with input := cs.dropWhile Char.isDigit })
      else if c = '=' then
        match cs with
        | d :: cs2 =>
          if d = '=' then ({ type := TokenType.EQUAL, text := "==" }, { s with input := cs2 })
          else ({ type := TokenType.ASSIGN, text := "=" }, { s with input := d :: cs2 })
        | [] => ({ type := TokenType.ASSIGN, text := "=" }, { s with input := [] })
      else (⟨singleType c, String.mk [c]⟩, { s with input := cs })

/-- C `ungetToken`: store one token in the pushback slot (overwriting). -/
def ungetToken (t : Token) (s : St) : St :=
  { s with pushback := some t }

/-- C `emit`: append one formatted line to the output buffer.  Note that
the C source performs `vsprintf(assembly[asmLine++], ...)` with no bounds
check against `MAX_CODE_LINES`; accordingly this model appends
unconditionally. -/
def emit (line : String) (s : St) : St :=
  { s with asm := s.asm ++ [line] }

/-- Look a name up in the symbol table (first match, insertion order),
as the search loop of C `getVarAddress` does. -/
def lookupVar (s : St) (name : String) : Option Nat :=
  (s.vars.find? (fun v => v.1 == name)).map (fun v => v.2)

/-- C `getVarAddress`: return the address already bound to `name`, or
bind `name` to the current next-free address and bump the counter;
fails fatally when the table already holds `MAX_VARS` entries. -/
def getVarAddress (name : String) (s : St) : Except CompErr (Nat × St) :=
  match s.vars.find? (fun v => v.1 == name) with
  | some v => Except.ok (v.2, s)
  | none =>
    if MAX_VARS ≤ s.vars.length then Except.error CompErr.capacityError
    else Except.ok (s.currentAddress,
      { s with vars := s.vars ++ [(name, s.currentAddress)],
               currentAddress := s.currentAddress + 1 })

/-- Label spelling `L<n>`, as produced by `sprintf(label, "L%d", n)`. -/
def labelName (n : Nat) : String :=
  "L" ++ toString n

/-- C `compileExpression`: compile the right-hand side of an assignment
to `targetVar`.  First operand NUMBER emits `LDI n`, first operand
IDENTIFIER emits `LDA a`; a PLUS/MINUS lookahead is consumed and the
second operand emits `ADDI/SUBI m` (NUMBER) or `ADD/SUB a` (IDENTIFIER);
any other lookahead is pushed back; finally `STA a_target` is emitted.
The call order of `getVarAddress` matches the C source exactly. -/
def compileExpression (targetVar : String) (s : St) : Except CompErr St :=
  let (token, s1) := getNextToken s
  if token.type = TokenType.NUMBER then
    let s2 := emit ("LDI " ++ token.text) s1
    let (op, s3) := getNextToken s2
    if op.type = TokenType.PLUS ∨ op.type = TokenType.MINUS then
      let (rhs, s4) := getNextToken s3
      if rhs.type = TokenType.NUMBER then
        let s5 := emit ((if op.type = TokenType.PLUS then "ADDI " else "SUBI ") ++ rhs.text) s4
        match getVarAddress targetVar s5 with
        | Except.ok (aT, s6) => Except.ok (emit ("STA " ++ toString aT) s6)
        | Except.error e => Except.error e
      else if rhs.type = TokenType.IDENTIFIER then
        match getVarAddress rhs.text s4 with
        | Except.ok (a, s5) =>
          let s6 := emit ((if op.type = TokenType.PLUS then "ADD " else "SUB ") ++ toString a) s5
          match getVarAddress targetVar s6 with
          | Except.ok (aT, s7) => Except.ok (emit ("STA " ++ toString aT) s7)
          | Except.error e => Except.error e
        | Except.error e => Except.error e
      else Except.error CompErr.syntaxError
    else
      let s4 := ungetToken op s3
      match getVarAddress targetVar s4 with
      | Except.ok (aT, s5) => Except.ok (emit ("STA " ++ toString aT) s5)
      | Except.error e => Except.error e
  else if token.type = TokenType.IDENTIFIER then
    let (op, s2) := getNextToken s1
    if op.type = TokenType.PLUS ∨ op.type = TokenType.MINUS then
      match getVarAddress token.text s2 with
      | Except.ok (a, s3) =>
        let s4 := emit ("LDA " ++ toString a) s3
        let (rhs, s5) := getNextToken s4
        if rhs.type = TokenType.NUMBER then
          let s6 := emit ((if op.type = TokenType.PLUS then "ADDI " else "SUBI ") ++ rhs.text) s5
          match getVarAddress targetVar s6 with
          | Except.ok (aT, s7) => Except.ok (emit ("STA " ++ toString aT) s7)
          | Except.error e => Except.error e
        else if rhs.type = TokenType.IDENTIFIER then
          match getVarAddress rhs.text s5 with
          | Except.ok (a2, s6) =>
            let s7 := emit ((if op.type = TokenType.PLUS then "ADD " else "SUB ") ++ toString a2) s6
            match getVarAddress targetVar s7 with
            | Except.ok (aT, s8) => Except.ok (emit ("STA " ++ toString aT) s8)
            | Except.error e => Except.error e
          | Except.error e => Except.error e
        else Except.error CompErr.syntaxError
      | Except.error e => Except.error e
    else
      match getVarAddress token.text s2 with
      | Except.ok (a, s3) =>
        let s4 := emit ("LDA " ++ toString a) s3
        match getVarAddress targetVar s4 with
        | Except.ok (aT, s5) =>
          let s6 := emit ("STA " ++ toString aT) s5
          Except.ok (ungetToken op s6)
        | Except.error e => Except.error e
      | Except.error e => Except.error e
  else Except.error CompErr.syntaxError

/-- Which of the two mutually recursive parsing procedures is running:
`statement` is C `compileStatement`, `ifBody` is the `while` loop inside
its `if` branch that parses statements until the closing brace. -/
inductive Mode where
  | statement
  | ifBody
deriving DecidableEq, Repr

/-- C `compileStatement`'s `int` declaration branch: expect IDENTIFIER,
resolve it (allocating), expect `;`.  Emits nothing. -/
def intDecl (s1 : St) : Except CompErr St :=
  let (t2, s2) := getNextToken s1
  if t2.type = TokenType.IDENTIFIER then
    match getVarAddress t2.text s2 with
    | Except.ok (_, s3) =>
      let (t3, s4) := getNextToken s3
      if t3.type = TokenType.SEMICOLON then Except.ok s4
      else Except.error CompErr.syntaxError
    | Except.error e => Except.error e
  else Except.error CompErr.syntaxError

/-- C `compileStatement`'s assignment branch after the leading
identifier `v`: expect `=`, compile the right-hand side, expect `;`. -/
def assignStmt (v : String) (s1 : St) : Except CompErr St :=
  let (t2, s2) := getNextToken s1
  if t2.type = TokenType.ASSIGN then
    match compileExpression v s2 with
    | Except.ok s3 =>
      let (t3, s4) := getNextToken s3
      if t3.type = TokenType.SEMICOLON then Except.ok s4
      else Except.error CompErr.syntaxError
    | Except.error e => Except.error e
  else Except.error CompErr.syntaxError

/-- The code-generation tail of C `compileStatement`'s `if` branch, after
the header tokens up to `\x7b` have been consumed: allocate the label
pair from the counter, emit the comparison (`LDA`; `SUBI`/`SUB`), the
jumps, the true-label line, run the body loop `k`, and emit the end
label. -/
def ifCodegen (k : Mode → St → Except CompErr St) (lhs rhs : Token) (s7 : St) :
    Except CompErr St :=
  let labelTrue := labelName s7.labelCount
  let labelEnd := labelName (s7.labelCount + 1)
  let s8 := { s7 with labelCount := s7.labelCount + 2 }
  match getVarAddress lhs.text s8 with
  | Except.ok (aLhs, s9) =>
    let s10 := emit ("LDA " ++ toString aLhs) s9
    let cond :=
      if rhs.type = TokenType.NUMBER then
        Except.ok (emit ("SUBI " ++ rhs.text) s10)
      else
        match getVarAddress rhs.text s10 with
        | Except.ok (aR, sr) => Except.ok (emit ("SUB " ++ toString aR) sr)
        | Except.error e => Except.error e
    match cond with
    | Except.ok s11 =>
      let s12 := emit ("JZ " ++ labelTrue) s11
      let s13 := emit ("JMP " ++ labelEnd) s12
      let s14 := emit (labelTrue ++ ":") s13
      match k Mode.ifBody s14 with
      | Except.ok s15 => Except.ok (emit (labelEnd ++ ":") s15)
      | Except.error e => Except.error e
    | Except.error e => Except.error e
  | Except.error e => Except.error e

/-- C `compileStatement`'s `if` branch: parse the header
`( IDENTIFIER == IDENTIFIER|NUMBER ) \x7b` with a fatal syntax error at
any mismatch, then generate code via `ifCodegen`. -/
def ifStmt (k : Mode → St → Except CompErr St) (s1 : St) : Except CompErr St :=
  let (t2, s2) := getNextToken s1
  if t2.type = TokenType.LPAREN then
    let (lhs, s3) := getNextToken s2
    if lhs.type = TokenType.IDENTIFIER then
      let (op, s4) := getNextToken s3
      if op.type = TokenType.EQUAL then
        let (rhs, s5) := getNextToken s4
        if rhs.type = TokenType.IDENTIFIER ∨ rhs.type = TokenType.NUMBER then
          let (t3, s6) := getNextToken s5
          if t3.type = TokenType.RPAREN then
            let (t4, s7) := getNextToken s6
            if t4.type = TokenType.LBRACE then
              ifCodegen k lhs rhs s7
            else Except.error CompErr.syntaxError
          else Except.error CompErr.syntaxError
        else Except.error CompErr.syntaxError
      else Except.error CompErr.syntaxError
    else Except.error CompErr.syntaxError
  else Except.error CompErr.syntaxError

/-- The dispatch of C `compileStatement`, parameterised by the recursive
entry point `k` (used for the statements inside an `if` block): dispatch
on the first token to end-of-file, `int` declaration, assignment, `if`,
empty statement `;`, block-closing `\x7d` (pushed back and returned to
the caller), or a fatal syntax error. -/
def stmtBody (k : Mode → St → Except CompErr St) (s : St) : Except CompErr St :=
  let (token, s1) := getNextToken s
  if token.type = TokenType.EOF then Except.ok s1
  else if token.type = TokenType.INT then intDecl s1
  else if token.type = TokenType.IDENTIFIER then assignStmt token.text s1
  else if token.type = TokenType.IF then ifStmt k s1
  else if token.type = TokenType.SEMICOLON then Except.ok s1
  else if token.type = TokenType.RBRACE then Except.ok (ungetToken token s1)
  else Except.error CompErr.syntaxError

/-- The body of the `while` loop inside C `compileStatement`'s `if`
branch: read tokens until `\x7d`, failing on end-of-file, pushing each
statement's first token back and recursing through `k`. -/
def ifBodyBody (k : Mode → St → Except CompErr St) (s : St) : Except CompErr St :=
  let (token, s1) := getNextToken s
  if token.type = TokenType.RBRACE then Except.ok s1
  else if token.type = TokenType.EOF then Except.error CompErr.syntaxError
  else
    match k Mode.statement (ungetToken token s1) with
    | Except.ok s2 => k Mode.ifBody s2
    | Except.error e => Except.error e

/-- C `compileStatement` (mode `statement`) and its inner if-body loop
(mode `ifBody`), fused into one fuel-indexed function so the recursion is
structural on the fuel. -/
def compileStep : Nat → Mode → St → Except CompErr St
  | 0, _, _ => Except.error CompErr.fuelOut
  | fuel + 1, Mode.statement, s => stmtBody (compileStep fuel) s
  | fuel + 1, Mode.ifBody, s => ifBodyBody (compileStep fuel) s

theorem compileStep_succ_statement (fuel : Nat) (s : St) :
    compileStep (fuel + 1) Mode.statement s = stmtBody (compileStep fuel) s := rfl

theorem compileStep_succ_ifBody (fuel : Nat) (s : St) :
    compileStep (fuel + 1) Mode.ifBody s = ifBodyBody (compileStep fuel) s := rfl

/-- C `compile`: the top-level loop — read a token, stop on end-of-file,
otherwise push it back and compile one statement, repeat. -/
def compileLoop : Nat → St → Except CompErr St
  | 0, _ => Except.error CompErr.fuelOut
  | fuel + 1, s =>
    let (token, s1) := getNextToken s
    if token.type = TokenType.EOF then Except.ok s1
    else
      match compileStep fuel Mode.statement (ungetToken token s1) with
      | Except.ok s2 => compileLoop fuel s2
      | Except.error e => Except.error e

/-- Run a whole compilation on a source string, with fuel generously
larger than any possible recursion depth for that input. -/
def compileSt (src : String) : Except CompErr St :=
  compileLoop (2 * src.length + 4) (initSt src)

/-- The emitted assembly lines of a whole compilation. -/
def compileStr (src : String) : Except CompErr (List String) :=
  (compileSt src).map (fun st => st.asm)

/-- A character list that scans as one NUMBER token without truncation:
nonempty, all digits, at most `MAX_TOKEN_LEN - 1 = 99` characters. -/
def isDigitCharsB (l : List Char) : Bool :=
  match l with
  | [] => false
  | c :: body =>
    c.isDigit && !c.isAlpha && !c.isWhitespace && body.all Char.isDigit &&
      decide (l.length ≤ MAX_TOKEN_LEN - 1)

/-- A character list that scans as one IDENTIFIER token without
truncation: a letter followed by letters/digits, at most 99 characters,
and not one of the keywords. -/
def isIdentCharsB (l : List Char) : Bool :=
  match l with
  | [] => false
  | c :: body =>
    c.isAlpha && !c.isWhitespace && body.all Char.isAlphanum &&
      decide (l.length ≤ MAX_TOKEN_LEN - 1) &&
      l.asString != "int" && l.asString != "if"

theorem takeWhile_all_append_cons {p : Char → Bool} {l1 l2 : List Char} {c : Char}
    (h1 : ∀ x ∈ l1, p x = true) (hc : p c = false) :
    (l1 ++ c :: l2).takeWhile p = l1 := by
  induction l1 with
  | nil => simp [List.takeWhile_cons_of_neg, hc]
  | cons a t ih =>
    rw [List.cons_append, List.takeWhile_cons_of_pos (h1 a (by simp)),
      ih (fun x hx => h1 x (by simp [hx]))]

theorem dropWhile_all_append_cons {p : Char → Bool} {l1 l2 : List Char} {c : Char}
    (h1 : ∀ x ∈ l1, p x = true) (hc : p c = false) :
    (l1 ++ c :: l2).dropWhile p = c :: l2 := by
  induction l1 with
  | nil => simp [List.dropWhile_cons_of_neg, hc]
  | cons a t ih =>
    rw [List.cons_append, List.dropWhile_cons_of_pos (h1 a (by simp)),
      ih (fun x hx => h1 x (by simp [hx]))]

theorem takeWhile_all {p : Char → Bool} {l : List Char} (h1 : ∀ x ∈ l, p x = true) :
    l.takeWhile p = l := by
  induction l with
  | nil => rfl
  | cons a t ih =>
    rw [List.takeWhile_cons_of_pos (h1 a (by simp)), ih (fun x hx => h1 x (by simp [hx]))]

theorem dropWhile_all {p : Char → Bool} {l : List Char} (h1 : ∀ x ∈ l, p x = true) :
    l.dropWhile p = [] := by
  induction l with
  | nil => rfl
  | cons a t ih =>
    rw [List.dropWhile_cons_of_pos (h1 a (by simp)), ih (fun x hx => h1 x (by simp [hx]))]

theorem not_isAlpha_of_not_isAlphanum {c : Char} (h : c.isAlphanum = false) :
    c.isAlpha = false := by
  unfold Char.isAlphanum at h
  exact (Bool.or_eq_false_iff.mp h).1

theorem not_isDigit_of_not_isAlphanum {c : Char} (h : c.isAlphanum = false) :
    c.isDigit = false := by
  unfold Char.isAlphanum at h
  exact (Bool.or_eq_false_iff.mp h).2

/-- Scanning a well-formed number followed by a non-alphanumeric
character: all digits are consumed, the token is NUMBER with the full
spelling, and the terminator stays in the input. -/
theorem getNextToken_number {s : St} {l : List Char} {d : Char} {rest : List Char}
    (hpb : s.pushback = none) (hin : s.input = l ++ d :: rest)
    (hl : isDigitCharsB l = true) (hd : d.isAlphanum = false) :
    getNextToken s =
      ({ type := TokenType.NUMBER, text := l.asString },
        { s with input := d :: rest, pushback := none }) := by
  obtain ⟨inp, pb, vars, ca, lc, asm⟩ := s
  dsimp at hpb hin
  subst hpb; subst hin
  cases l with
  | nil => simp [isDigitCharsB] at hl
  | cons c body =>
    simp only [isDigitCharsB, Bool.and_eq_true, Bool.not_eq_true', decide_eq_true_eq,
      List.all_eq_true] at hl
    obtain ⟨⟨⟨⟨hc, hca⟩, hcw⟩, hbody⟩, hlen⟩ := hl
    have hdd : d.isDigit = false := not_isDigit_of_not_isAlphanum hd
    have h1 : List.dropWhile Char.isWhitespace (c :: (body ++ d :: rest)) =
        c :: (body ++ d :: rest) :=
      List.dropWhile_cons_of_neg (by simp [hcw])
    have htw : List.takeWhile Char.isDigit (body ++ d :: rest) = body :=
      takeWhile_all_append_cons hbody hdd
    have hdw : List.dropWhile Char.isDigit (body ++ d :: rest) = d :: rest :=
      dropWhile_all_append_cons hbody hdd
    have htake : body.take (MAX_TOKEN_LEN - 2) = body := by
      refine List.take_of_length_le ?_
      simp only [List.length_cons, MAX_TOKEN_LEN] at hlen ⊢
      omega
    simp [getNextToken, List.cons_append, h1, hca, hc, htw, hdw, htake]

/-- Scanning a well-formed number that ends the input. -/
theorem getNextToken_number_eos {s : St} {l : List Char}
    (hpb : s.pushback = none) (hin : s.input = l)
    (hl : isDigitCharsB l = true) :
    getNextToken s =
      ({ type := TokenType.NUMBER, text := l.asString },
        { s with input := [], pushback := none }) := by
  obtain ⟨inp, pb, vars, ca, lc, asm⟩ := s
  dsimp at hpb hin
  subst hpb; subst hin
  cases inp with
  | nil => simp [isDigitCharsB] at hl
  | cons c body =>
    simp only [isDigitCharsB, Bool.and_eq_true, Bool.not_eq_true', decide_eq_true_eq,
      List.all_eq_true] at hl
    obtain ⟨⟨⟨⟨hc, hca⟩, hcw⟩, hbody⟩, hlen⟩ := hl
    have h1 : List.dropWhile Char.isWhitespace (c :: body) = c :: body :=
      List.dropWhile_cons_of_neg (by simp [hcw])
    have htw : List.takeWhile Char.isDigit body = body := takeWhile_all hbody
    have hdw : List.dropWhile Char.isDigit body = [] := dropWhile_all hbody
    have htake : body.take (MAX_TOKEN_LEN - 2) = body := by
      refine List.take_of_length_le ?_
      simp only [List.length_cons, MAX_TOKEN_LEN] at hlen ⊢
      omega
    simp [getNextToken, h1, hca, hc, htw, hdw, htake]

/-- Scanning a well-formed identifier followed by a non-alphanumeric
character: the token is IDENTIFIER with the full spelling. -/
theorem getNextToken_ident {s : St} {l : List Char} {d : Char} {rest : List Char}
    (hpb : s.pushback = none) (hin : s.input = l ++ d :: rest)
    (hl : isIdentCharsB l = true) (hd : d.isAlphanum = false) :
    getNextToken s =
      ({ type := TokenType.IDENTIFIER, text := l.asString },
        { s with input := d :: rest, pushback := none }) := by
  obtain ⟨inp, pb, vars, ca, lc, asm⟩ := s
  dsimp at hpb hin
  subst hpb; subst hin
  cases l with
  | nil => simp [isIdentCharsB] at hl
  | cons c body =>
    simp only [isIdentCharsB, Bool.and_eq_true, Bool.not_eq_true', decide_eq_true_eq,
      List.all_eq_true, bne_iff_ne, ne_eq] at hl
    obtain ⟨⟨⟨⟨⟨hc, hcw⟩, hbody⟩, hlen⟩, hint⟩, hif⟩ := hl
    have h1 : List.dropWhile Char.isWhitespace (c :: (body ++ d :: rest)) =
        c :: (body ++ d :: rest) :=
      List.dropWhile_cons_of_neg (by simp [hcw])
    have htw : List.takeWhile Char.isAlphanum (body ++ d :: rest) = body :=
      takeWhile_all_append_cons hbody hd
    have hdw : List.dropWhile Char.isAlphanum (body ++ d :: rest) = d :: rest :=
      dropWhile_all_append_cons hbody hd
    have htake : body.take (MAX_TOKEN_LEN - 2) = body := by
      refine List.take_of_length_le ?_
      simp only [List.length_cons, MAX_TOKEN_LEN] at hlen ⊢
      omega
    simp [getNextToken, List.cons_append, h1, hc, htw, hdw, htake, hint, hif]

/-- Scanning a well-formed identifier that ends the input. -/
theorem getNextToken_ident_eos {s : St} {l : List Char}
    (hpb : s.pushback = none) (hin : s.input = l)
    (hl : isIdentCharsB l = true) :
    getNextToken s =
      ({ type := TokenType.IDENTIFIER, text := l.asString },
        { s with input := [], pushback := none }) := by
  obtain ⟨inp, pb, vars, ca, lc, asm⟩ := s
  dsimp at hpb hin
  subst hpb; subst hin
  cases inp with
  | nil => simp [isIdentCharsB] at hl
  | cons c body =>
    simp only [isIdentCharsB, Bool.and_eq_true, Bool.not_eq_true', decide_eq_true_eq,
      List.all_eq_true, bne_iff_ne, ne_eq] at hl
    obtain ⟨⟨⟨⟨⟨hc, hcw⟩, hbody⟩, hlen⟩, hint⟩, hif⟩ := hl
    have h1 : List.dropWhile Char.isWhitespace (c :: body) = c :: body :=
      List.dropWhile_cons_of_neg (by simp [hcw])
    have htw : List.takeWhile Char.isAlphanum body = body := takeWhile_all hbody
    have hdw : List.dropWhile Char.isAlphanum body = [] := dropWhile_all hbody
    have htake : body.take (MAX_TOKEN_LEN - 2) = body := by
      refine List.take_of_length_le ?_
      simp only [List.length_cons, MAX_TOKEN_LEN] at hlen ⊢
      omega
    simp [getNextToken, h1, hc, htw, hdw, htake, hint, hif]

/-- Returning a pushed-back token clears the pushback slot. -/
theorem getNextToken_pushback {s : St} {t : Token} (h : s.pushback = some t) :
    getNextToken s = (t, { s with pushback := none }) := by
  unfold getNextToken
  rw [h]

/-- Scanning a single-character token other than `=`. -/
theorem getNextToken_single {s : St} {c : Char} {rest : List Char}
    (hpb : s.pushback = none) (hin : s.input = c :: rest)
    (ha : c.isAlpha = false) (hdd : c.isDigit = false) (hw : c.isWhitespace = false)
    (he : c ≠ '=') :
    getNextToken s =
      (⟨singleType c, String.mk [c]⟩, { s with input := rest, pushback := none }) := by
  obtain ⟨inp, pb, vars, ca, lc, asm⟩ := s
  dsimp at hpb hin
  subst hpb; subst hin
  have h1 : List.dropWhile Char.isWhitespace (c :: rest) = c :: rest :=
    List.dropWhile_cons_of_neg (by simp [hw])
  simp [getNextToken, h1, ha, hdd, he]

/-- Scanning `==` yields the EQUAL token. -/
theorem getNextToken_equal {s : St} {rest : List Char}
    (hpb : s.pushback = none) (hin : s.input = '=' :: '=' :: rest) :
    getNextToken s =
      ({ type := TokenType.EQUAL, text := "==" }, { s with input := rest, pushback := none }) := by
  obtain ⟨inp, pb, vars, ca, lc, asm⟩ := s
  dsimp at hpb hin
  subst hpb; subst hin
  have h1 : List.dropWhile Char.isWhitespace ('=' :: '=' :: rest) = '=' :: '=' :: rest :=
    List.dropWhile_cons_of_neg (by simp)
  simp [getNextToken, h1]

/-- Scanning `=` not followed by another `=` yields the ASSIGN token. -/
theorem getNextToken_assign {s : St} {d : Char} {rest : List Char}
    (hpb : s.pushback = none) (hin : s.input = '=' :: d :: rest) (hd : d ≠ '=') :
    getNextToken s =
      ({ type := TokenType.ASSIGN, text := "=" }, { s with input := d :: rest, pushback := none }) := by
  obtain ⟨inp, pb, vars, ca, lc, asm⟩ := s
  dsimp at hpb hin
  subst hpb; subst hin
  have h1 : List.dropWhile Char.isWhitespace ('=' :: d :: rest) = '=' :: d :: rest :=
    List.dropWhile_cons_of_neg (by simp)
  simp [getNextToken, h1, hd]

/-- `getVarAddress` on a name already in the table returns its bound
address and leaves the state unchanged. -/
theorem getVarAddress_found {s : St} {name : String} {a : Nat}
    (h : lookupVar s name = some a) :
    getVarAddress name s = Except.ok (a, s) := by
  unfold lookupVar at h
  unfold getVarAddress
  cases hf : s.vars.find? (fun v => v.1 == name) with
  | none => rw [hf] at h; simp at h
  | some v =>
    rw [hf] at h
    simp only [Option.map_some', Option.some.injEq] at h
    simp [h]

/-- `getVarAddress` on an unseen name with table room binds it to the
current next-free address and bumps the counter. -/
theorem getVarAddress_new {s : St} {name : String}
    (h : lookupVar s name = none) (hlen : s.vars.length < MAX_VARS) :
    getVarAddress name s = Except.ok (s.currentAddress,
      { s with vars := s.vars ++ [(name, s.currentAddress)],
               currentAddress := s.currentAddress + 1 }) := by
  unfold lookupVar at h
  unfold getVarAddress
  cases hf : s.vars.find? (fun v => v.1 == name) with
  | some v => rw [hf] at h; simp at h
  | none => simp only []; rw [if_neg (by omega)]

/-- `getVarAddress` on an unseen name with a full table fails with the
capacity error. -/
theorem getVarAddress_full {s : St} {name : String}
    (h : lookupVar s name = none) (hlen : MAX_VARS ≤ s.vars.length) :
    getVarAddress name s = Except.error CompErr.capacityError := by
  unfold lookupVar at h
  unfold getVarAddress
  cases hf : s.vars.find? (fun v => v.1 == name) with
  | some v => rw [hf] at h; simp at h
  | none => simp only []; rw [if_pos hlen]

/-- The next-state of the lexer only changes the input and pushback
fields. -/
theorem getNextToken_sub (s : St) :
    ∃ l pb, (getNextToken s).2 = { s with input := l, pushback := pb } := by
  obtain ⟨inp, pb, vars, ca, lc, asm⟩ := s
  unfold getNextToken
  rcases pb with _ | t
  · dsimp only
    rcases List.dropWhile Char.isWhitespace inp with _ | ⟨c, cs⟩
    · exact ⟨[], none, rfl⟩
    · dsimp only
      split
      · exact ⟨_, _, rfl⟩
      · split
        · exact ⟨_, _, rfl⟩
        · split
          · rcases cs with _ | ⟨d, cs2⟩
            · exact ⟨_, _, rfl⟩
            · dsimp only
              split
              · exact ⟨_, _, rfl⟩
              · exact ⟨_, _, rfl⟩
          · exact ⟨_, _, rfl⟩
  · exact ⟨inp, none, rfl⟩

/-- The two possible outcomes of a successful `getVarAddress`: the name
was found (state unchanged, bound address returned), or the name was
fresh (bound to the current next-free address, counter bumped). -/
theorem getVarAddress_ok_cases {n : String} {s : St} {a : Nat} {s' : St}
    (h : getVarAddress n s = Except.ok (a, s')) :
    (s' = s ∧ lookupVar s n = some a) ∨
      (s' = { s with vars := s.vars ++ [(n, s.currentAddress)],
                     currentAddress := s.currentAddress + 1 } ∧
        a = s.currentAddress ∧ lookupVar s n = none) := by
  unfold getVarAddress at h
  split at h
  next v heq =>
    simp only [Except.ok.injEq, Prod.mk.injEq] at h
    refine Or.inl ⟨h.2.symm, ?_⟩
    rw [lookupVar, heq, Option.map_some', h.1]
  next heq =>
    split at h
    · simp at h
    · simp only [Except.ok.injEq, Prod.mk.injEq] at h
      refine Or.inr ⟨h.2.symm, h.1.symm, ?_⟩
      rw [lookupVar, heq, Option.map_none']

/-- Output-and-label growth: the label counter never decreases and the
emitted lines are only appended to. -/
def Grows (s s' : St) : Prop :=
  s.labelCount ≤ s'.labelCount ∧ ∃ l, s'.asm = s.asm ++ l

theorem Grows.refl (s : St) : Grows s s :=
  ⟨Nat.le_refl _, [], by simp⟩

theorem Grows.trans {s1 s2 s3 : St} (h1 : Grows s1 s2) (h2 : Grows s2 s3) :
    Grows s1 s3 := by
  obtain ⟨hl1, l1, ha1⟩ := h1
  obtain ⟨hl2, l2, ha2⟩ := h2
  exact ⟨Nat.le_trans hl1 hl2, l1 ++ l2, by rw [ha2, ha1, List.append_assoc]⟩

theorem grows_getNextToken (s : St) : Grows s (getNextToken s).2 := by
  obtain ⟨l, pb, h⟩ := getNextToken_sub s
  rw [h]
  exact ⟨Nat.le_refl _, [], by simp⟩

theorem grows_ungetToken (t : Token) (s : St) : Grows s (ungetToken t s) :=
  ⟨Nat.le_refl _, [], by simp [ungetToken]⟩

theorem grows_emit (line : String) (s : St) : Grows s (emit line s) :=
  ⟨Nat.le_refl _, [line], rfl⟩

theorem grows_getVarAddress {n : String} {s : St} {a : Nat} {s' : St}
    (h : getVarAddress n s = Except.ok (a, s')) : Grows s s' := by
  rcases getVarAddress_ok_cases h with h1 | h1 <;> rw [h1.1]
  · exact Grows.refl s
  · exact ⟨Nat.le_refl _, [], by simp⟩

theorem grows_labelBump (s : St) (n : Nat) :
    Grows s { s with labelCount := s.labelCount + n } :=
  ⟨Nat.le_add_right _ _, [], by simp⟩

/-- Claim C1's input program. -/
def progC1 : String := "int x; x = 5; if (x == 5) \x7b x = x + 1; \x7d"

/-- Claim C1: compiling `int x; x = 5; if (x == 5) { x = x + 1; }` from a
fresh state (address counter 16, label counter 0) emits exactly the line
sequence `LDI 5`, `STA 16`, `LDA 16`, `SUBI 5`, `JZ L0`, `JMP L1`, `L0:`,
`LDA 16`, `ADDI 1`, `STA 16`, `L1:` and nothing else. -/
theorem C1_end_to_end :
    compileStr progC1 =
      Except.ok ["LDI 5", "STA 16", "LDA 16", "SUBI 5", "JZ L0", "JMP L1",
                 "L0:", "LDA 16", "ADDI 1", "STA 16", "L1:"] := by
  rfl

/-- The RBRACE token as scanned from a bare `\x7d` character. -/
def rbraceTok : Token := { type := TokenType.RBRACE, text := String.mk ['\x7d'] }

/-- The state the top-level loop returns to forever on a stray top-level
closing brace: empty input, the brace token parked in the pushback slot. -/
def stuckSt : St :=
  { input := [], pushback := some rbraceTok, vars := [],
    currentAddress := 16, labelCount := 0, asm := [] }

theorem compileLoop_stuck : ∀ fuel, compileLoop fuel stuckSt = Except.error CompErr.fuelOut := by
  intro fuel
  induction fuel with
  | zero => rfl
  | succ n ih =>
    have h1 : compileLoop (n + 1) stuckSt =
        match compileStep n Mode.statement stuckSt with
        | Except.ok s2 => compileLoop n s2
        | Except.error e => Except.error e := rfl
    cases n with
    | zero => rfl
    | succ m =>
      have h2 : compileStep (m + 1) Mode.statement stuckSt = Except.ok stuckSt := rfl
      rw [h1, h2]
      exact ih

/-- Claim C6 (refuting the termination claim on the code as written): on
the one-character input `\x7d`, the top-level compile loop never
terminates — for every amount of fuel the model exhausts it.  In the C
source, `compileStatement`'s RBRACE branch pushes the brace back and
returns, and `compile`'s loop immediately re-reads the same token, looping
forever. -/
theorem C6_stray_rbrace_diverges :
    ∀ fuel, compileLoop fuel (initSt (String.mk ['\x7d'])) = Except.error CompErr.fuelOut := by
  intro fuel
  cases fuel with
  | zero => rfl
  | succ n =>
    have h1 : compileLoop (n + 1) (initSt (String.mk ['\x7d'])) =
        compileLoop (n + 1) stuckSt := by
      cases n with
      | zero => rfl
      | succ m => rfl
    rw [h1]
    exact compileLoop_stuck (n + 1)

/-- A state whose output buffer already holds `MAX_CODE_LINES` lines. -/
def st1000 : St :=
  { input := [], pushback := none, vars := [],
    currentAddress := 16, labelCount := 0,
    asm := List.replicate MAX_CODE_LINES ("NOP") }

/-- Claim C7 (refuting the capacity-check claim on the code as written):
`emit` appends unconditionally — in particular a 1001st line is stored
with no CapacityError, because the C `emit` writes
`vsprintf(assembly[asmLine++], ...)` without any bound check against
`MAX_CODE_LINES` (an out-of-bounds write in C). -/
theorem C7_emit_unchecked :
    (∀ (s : St) (line : String), (emit line s).asm = s.asm ++ [line]) ∧
      (emit ("LDI 5") st1000).asm.length = MAX_CODE_LINES + 1 := by
  refine ⟨fun s line => rfl, ?_⟩
  simp [emit, st1000]

/-- An expression operand as it appears in the source text: a number
literal or a variable name, given by its character spelling. -/
inductive Operand where
  | num (ds : List Char)
  | var (ds : List Char)
deriving DecidableEq, Repr

/-- The characters of an operand. -/
def operandChars : Operand → List Char
  | Operand.num ds => ds
  | Operand.var ds => ds

/-- Well-formedness of an operand spelling (scans as a single
untruncated NUMBER/IDENTIFIER token). -/
def wfOperandB : Operand → Bool
  | Operand.num ds => isDigitCharsB ds
  | Operand.var ds => isIdentCharsB ds

/-- A variable operand is bound in the symbol table (numbers always are). -/
def boundOperandB (s : St) : Operand → Bool
  | Operand.num _ => true
  | Operand.var ds => (lookupVar s ds.asString).isSome

/-- The address a bound name resolves to. -/
def addrOf (s : St) (ds : List Char) : Nat :=
  (lookupVar s ds.asString).getD 0

/-- An assignment right-hand side: one operand, optionally followed by a
`+` or `-` and a second operand. -/
inductive ExprSrc where
  | single (x : Operand)
  | binop (x : Operand) (isPlus : Bool) (y : Operand)
deriving DecidableEq, Repr

/-- The source characters of an expression. -/
def renderExpr : ExprSrc → List Char
  | ExprSrc.single x => operandChars x
  | ExprSrc.binop x p y => operandChars x ++ (if p then '+' else '-') :: operandChars y

/-- Well-formedness of an expression's operand spellings. -/
def wfExprB : ExprSrc → Bool
  | ExprSrc.single x => wfOperandB x
  | ExprSrc.binop x _ y => wfOperandB x && wfOperandB y

/-- All variable operands of an expression are bound. -/
def boundExprB (s : St) : ExprSrc → Bool
  | ExprSrc.single x => boundOperandB s x
  | ExprSrc.binop x _ y => boundOperandB s x && boundOperandB s y

/-- Transcribed from the spec's expression-codegen table: the first
emitted line loads the first operand (`LDI n` / `LDA a_v`). -/
def spec_loadLine (s : St) : Operand → String
  | Operand.num ds => "LDI " ++ ds.asString
  | Operand.var ds => "LDA " ++ toString (addrOf s ds)

/-- Transcribed from the spec's expression-codegen table: the second
emitted line applies the operator to the second operand
(`ADDI/SUBI m` / `ADD/SUB a_w`). -/
def spec_opLine (s : St) (isPlus : Bool) : Operand → String
  | Operand.num ds => (if isPlus then "ADDI " else "SUBI ") ++ ds.asString
  | Operand.var ds => (if isPlus then "ADD " else "SUB ") ++ toString (addrOf s ds)

/-- Transcribed from the spec's expression-codegen table: the full
emitted line list for one assignment right-hand side with target
address `aT`. -/
def spec_exprLines (s : St) (aT : Nat) : ExprSrc → List String
  | ExprSrc.single x => [spec_loadLine s x, "STA " ++ toString aT]
  | ExprSrc.binop x p y => [spec_loadLine s x, spec_opLine s p y, "STA " ++ toString aT]

/-- The state after compiling an expression rendered as
`renderExpr e ++ ';' :: rest`: in the single-operand case the semicolon
lookahead has been consumed and pushed back; in the operator case the
lookahead was the operator, so the semicolon is still unread. -/
def spec_exprFinal (s : St) (aT : Nat) (rest : List Char) : ExprSrc → St
  | ExprSrc.single x =>
    { s with input := rest,
             pushback := some { type := TokenType.SEMICOLON, text := ";" },
             asm := s.asm ++ spec_exprLines s aT (ExprSrc.single x) }
  | ExprSrc.binop x p y =>
    { s with input := ';' :: rest,
             pushback := none,
             asm := s.asm ++ spec_exprLines s aT (ExprSrc.binop x p y) }

theorem lookupVar_eq_some_getD {s : St} {n : String} (h : (lookupVar s n).isSome = true) :
    lookupVar s n = some ((lookupVar s n).getD 0) := by
  cases hl : lookupVar s n
  · rw [hl] at h; simp at h
  · simp

/-- The six-case expression-codegen table, proved against the compiler:
for a well-formed right-hand side whose variables (and the target) are
bound, `compileExpression` emits exactly the spec's lines and handles the
operator lookahead as specified (consumed if PLUS/MINUS, pushed back
otherwise). -/
theorem compileExpression_shape (e : ExprSrc) (T : String) (aT : Nat) (s : St)
    (rest : List Char)
    (hpb : s.pushback = none)
    (hin : s.input = renderExpr e ++ ';' :: rest)
    (hwf : wfExprB e = true)
    (hb : boundExprB s e = true)
    (hT : lookupVar s T = some aT) :
    compileExpression T s = Except.ok (spec_exprFinal s aT rest e) := by
  obtain ⟨inp, pb, vars, ca, lc, asm⟩ := s
  dsimp at hpb hin
  subst hpb
  cases e with
  | single x =>
    cases x with
    | num ds =>

      simp only [renderExpr, operandChars] at hin
      subst hin
      have e1 := getNextToken_number (s := (⟨ds ++ ';' :: rest, none, vars, ca, lc, asm⟩ : St))
        (l := ds) (d := ';') rfl rfl hwf (by decide)
      have e2 := getNextToken_single (s := (⟨';' :: rest, none, vars, ca, lc, asm ++ ["LDI " ++ List.asString ds]⟩ : St))
        (c := ';') rfl rfl (by decide) (by decide) (by decide) (by decide)
      have e3 := getVarAddress_found (s := (⟨rest, some { type := TokenType.SEMICOLON, text := String.mk [';'] }, vars, ca, lc, asm ++ ["LDI " ++ List.asString ds]⟩ : St)) hT
      simp [compileExpression, e1, e2, e3, emit, ungetToken, singleType,
        spec_exprFinal, spec_exprLines, spec_loadLine, spec_opLine, addrOf]
    | var ds =>
      simp only [renderExpr, operandChars] at hin
      subst hin
      obtain ⟨ax, hax⟩ := Option.isSome_iff_exists.mp hb
      have e1 := getNextToken_ident (s := (⟨ds ++ ';' :: rest, none, vars, ca, lc, asm⟩ : St))
        (l := ds) (d := ';') rfl rfl hwf (by decide)
      have e2 := getNextToken_single (s := (⟨';' :: rest, none, vars, ca, lc, asm⟩ : St))
        (c := ';') rfl rfl (by decide) (by decide) (by decide) (by decide)
      have e3 := getVarAddress_found (s := (⟨rest, none, vars, ca, lc, asm⟩ : St)) hax
      have e4 := getVarAddress_found (s := (⟨rest, none, vars, ca, lc, asm ++ ["LDA " ++ toString ax]⟩ : St)) hT
      simp [compileExpression, e1, e2, e3, e4, emit, ungetToken, singleType,
        spec_exprFinal, spec_exprLines, spec_loadLine, spec_opLine, addrOf, hax]
  | binop x p y =>
    simp only [wfExprB, Bool.and_eq_true] at hwf
    simp only [boundExprB, Bool.and_eq_true] at hb
    cases x with
    | num ds =>
      cases y with
      | num es =>
        cases p with
        | true =>
          simp only [renderExpr, operandChars, List.append_assoc, List.cons_append,
            if_true, if_false, Bool.false_eq_true] at hin
          subst hin
          have e1 := getNextToken_number (s := (⟨ds ++ '+' :: (es ++ ';' :: rest), none, vars, ca, lc, asm⟩ : St))
            (l := ds) (d := '+') rfl rfl hwf.1 (by decide)
          have e2 := getNextToken_single (s := (⟨'+' :: (es ++ ';' :: rest), none, vars, ca, lc, asm ++ ["LDI " ++ List.asString ds]⟩ : St))
            (c := '+') rfl rfl (by decide) (by decide) (by decide) (by decide)
          have e3 := getNextToken_number (s := (⟨es ++ ';' :: rest, none, vars, ca, lc, asm ++ ["LDI " ++ List.asString ds]⟩ : St))
            (l := es) (d := ';') rfl rfl hwf.2 (by decide)
          have e4 := getVarAddress_found (s := (⟨';' :: rest, none, vars, ca, lc, asm ++ ["LDI " ++ List.asString ds, "ADDI " ++ List.asString es]⟩ : St)) hT
          simp [compileExpression, e1, e2, e3, e4, emit, ungetToken, singleType,
            spec_exprFinal, spec_exprLines, spec_loadLine, spec_opLine, addrOf]
        | false =>
          simp only [renderExpr, operandChars, List.append_assoc, List.cons_append,
            if_true, if_false, Bool.false_eq_true] at hin
          subst hin
          have e1 := getNextToken_number (s := (⟨ds ++ '-' :: (es ++ ';' :: rest), none, vars, ca, lc, asm⟩ : St))
            (l := ds) (d := '-') rfl rfl hwf.1 (by decide)
          have e2 := getNextToken_single (s := (⟨'-' :: (es ++ ';' :: rest), none, vars, ca, lc, asm ++ ["LDI " ++ List.asString ds]⟩ : St))
            (c := '-') rfl rfl (by decide) (by decide) (by decide) (by decide)
          have e3 := getNextToken_number (s := (⟨es ++ ';' :: rest, none, vars, ca, lc, asm ++ ["LDI " ++ List.asString ds]⟩ : St))
            (l := es) (d := ';') rfl rfl hwf.2 (by decide)
          have e4 := getVarAddress_found (s := (⟨';' :: rest, none, vars, ca, lc, asm ++ ["LDI " ++ List.asString ds, "SUBI " ++ List.asString es]⟩ : St)) hT
          simp [compileExpression, e1, e2, e3, e4, emit, ungetToken, singleType,
            spec_exprFinal, spec_exprLines, spec_loadLine, spec_opLine, addrOf]
      | var es =>
        cases p with
        | true =>
          simp only [renderExpr, operandChars, List.append_assoc, List.cons_append,
            if_true, if_false, Bool.false_eq_true] at hin
          subst hin
          obtain ⟨ay, hay⟩ := Option.isSome_iff_exists.mp hb.2
          have e1 := getNextToken_number (s := (⟨ds ++ '+' :: (es ++ ';' :: rest), none, vars, ca, lc, asm⟩ : St))
            (l := ds) (d := '+') rfl rfl hwf.1 (by decide)
          have e2 := getNextToken_single (s := (⟨'+' :: (es ++ ';' :: rest), none, vars, ca, lc, asm ++ ["LDI " ++ List.asString ds]⟩ : St))
            (c := '+') rfl rfl (by decide) (by decide) (by decide) (by decide)
          have e3 := getNextToken_ident (s := (⟨es ++ ';' :: rest, none, vars, ca, lc, asm ++ ["LDI " ++ List.asString ds]⟩ : St))
            (l := es) (d := ';') rfl rfl hwf.2 (by decide)
          have e4 := getVarAddress_found (s := (⟨';' :: rest, none, vars, ca, lc, asm ++ ["LDI " ++ List.asString ds]⟩ : St)) hay
          have e5 := getVarAddress_found (s := (⟨';' :: rest, none, vars, ca, lc, asm ++ ["LDI " ++ List.asString ds, "ADD " ++ toString ay]⟩ : St)) hT
          simp [compileExpression, e1, e2, e3, e4, e5, emit, ungetToken, singleType,
            spec_exprFinal, spec_exprLines, spec_loadLine, spec_opLine, addrOf, hay]
        | false =>
          simp only [renderExpr, operandChars, List.append_assoc, List.cons_append,
            if_true, if_false, Bool.false_eq_true] at hin
          subst hin
          obtain ⟨ay, hay⟩ := Option.isSome_iff_exists.mp hb.2
          have e1 := getNextToken_number (s := (⟨ds ++ '-' :: (es ++ ';' :: rest), none, vars, ca, lc, asm⟩ : St))
            (l := ds) (d := '-') rfl rfl hwf.1 (by decide)
          have e2 := getNextToken_single (s := (⟨'-' :: (es ++ ';' :: rest), none, vars, ca, lc, asm ++ ["LDI " ++ List.asString ds]⟩ : St))
            (c := '-') rfl rfl (by decide) (by decide) (by decide) (by decide)
          have e3 := getNextToken_ident (s := (⟨es ++ ';' :: rest, none, vars, ca, lc, asm ++ ["LDI " ++ List.asString ds]⟩ : St))
            (l := es) (d := ';') rfl rfl hwf.2 (by decide)
          have e4 := getVarAddress_found (s := (⟨';' :: rest, none, vars, ca, lc, asm ++ ["LDI " ++ List.asString ds]⟩ : St)) hay
          have e5 := getVarAddress_found (s := (⟨';' :: rest, none, vars, ca, lc, asm ++ ["LDI " ++ List.asString ds, "SUB " ++ toString ay]⟩ : St)) hT
          simp [compileExpression, e1, e2, e3, e4, e5, emit, ungetToken, singleType,
            spec_exprFinal, spec_exprLines, spec_loadLine, spec_opLine, addrOf, hay]
    | var ds =>
      cases y with
      | num es =>
        cases p with
        | true =>
          simp only [renderExpr, operandChars, List.append_assoc, List.cons_append,
            if_true, if_false, Bool.false_eq_true] at hin
          subst hin
          obtain ⟨ax, hax⟩ := Option.isSome_iff_exists.mp hb.1
          have e1 := getNextToken_ident (s := (⟨ds ++ '+' :: (es ++ ';' :: rest), none, vars, ca, lc, asm⟩ : St))
            (l := ds) (d := '+') rfl rfl hwf.1 (by decide)
          have e2 := getNextToken_single (s := (⟨'+' :: (es ++ ';' :: rest), none, vars, ca, lc, asm⟩ : St))
            (c := '+') rfl rfl (by decide) (by decide) (by decide) (by decide)
          have e3 := getVarAddress_found (s := (⟨es ++ ';' :: rest, none, vars, ca, lc, asm⟩ : St)) hax
          have e4 := getNextToken_number (s := (⟨es ++ ';' :: rest, none, vars, ca, lc, asm ++ ["LDA " ++ toString ax]⟩ : St))
            (l := es) (d := ';') rfl rfl hwf.2 (by decide)
          have e5 := getVarAddress_found (s := (⟨';' :: rest, none, vars, ca, lc, asm ++ ["LDA " ++ toString ax, "ADDI " ++ List.asString es]⟩ : St)) hT
          simp [compileExpression, e1, e2, e3, e4, e5, emit, ungetToken, singleType,
            spec_exprFinal, spec_exprLines, spec_loadLine, spec_opLine, addrOf, hax]
        | false =>
          simp only [renderExpr, operandChars, List.append_assoc, List.cons_append,
            if_true, if_false, Bool.false_eq_true] at hin
          subst hin
          obtain ⟨ax, hax⟩ := Option.isSome_iff_exists.mp hb.1
          have e1 := getNextToken_ident (s := (⟨ds ++ '-' :: (es ++ ';' :: rest), none, vars, ca, lc, asm⟩ : St))
            (l := ds) (d := '-') rfl rfl hwf.1 (by decide)
          have e2 := getNextToken_single (s := (⟨'-' :: (es ++ ';' :: rest), none, vars, ca, lc, asm⟩ : St))
            (c := '-') rfl rfl (by decide) (by decide) (by decide) (by decide)
          have e3 := getVarAddress_found (s := (⟨es ++ ';' :: rest, none, vars, ca, lc, asm⟩ : St)) hax
          have e4 := getNextToken_number (s := (⟨es ++ ';' :: rest, none, vars, ca, lc, asm ++ ["LDA " ++ toString ax]⟩ : St))
            (l := es) (d := ';') rfl rfl hwf.2 (by decide)
          have e5 := getVarAddress_found (s := (⟨';' :: rest, none, vars, ca, lc, asm ++ ["LDA " ++ toString ax, "SUBI " ++ List.asString es]⟩ : St)) hT
          simp [compileExpression, e1, e2, e3, e4, e5, emit, ungetToken, singleType,
            spec_exprFinal, spec_exprLines, spec_loadLine, spec_opLine, addrOf, hax]
      | var es =>
        cases p with
        | true =>
          simp only [renderExpr, operandChars, List.append_assoc, List.cons_append,
            if_true, if_false, Bool.false_eq_true] at hin
          subst hin
          obtain ⟨ax, hax⟩ := Option.isSome_iff_exists.mp hb.1
          obtain ⟨ay, hay⟩ := Option.isSome_iff_exists.mp hb.2
          have e1 := getNextToken_ident (s := (⟨ds ++ '+' :: (es ++ ';' :: rest), none, vars, ca, lc, asm⟩ : St))
            (l := ds) (d := '+') rfl rfl hwf.1 (by decide)
          have e2 := getNextToken_single (s := (⟨'+' :: (es ++ ';' :: rest), none, vars, ca, lc, asm⟩ : St))
            (c := '+') rfl rfl (by decide) (by decide) (by decide) (by decide)
          have e3 := getVarAddress_found (s := (⟨es ++ ';' :: rest, none, vars, ca, lc, asm⟩ : St)) hax
          have e4 := getNextToken_ident (s := (⟨es ++ ';' :: rest, none, vars, ca, lc, asm ++ ["LDA " ++ toString ax]⟩ : St))
            (l := es) (d := ';') rfl rfl hwf.2 (by decide)
          have e5 := getVarAddress_found (s := (⟨';' :: rest, none, vars, ca, lc, asm ++ ["LDA " ++ toString ax]⟩ : St)) hay
          have e6 := getVarAddress_found (s := (⟨';' :: rest, none, vars, ca, lc, asm ++ ["LDA " ++ toString ax, "ADD " ++ toString ay]⟩ : St)) hT
          simp [compileExpression, e1, e2, e3, e4, e5, e6, emit, ungetToken, singleType,
            spec_exprFinal, spec_exprLines, spec_loadLine, spec_opLine, addrOf, hax, hay]
        | false =>
          simp only [renderExpr, operandChars, List.append_assoc, List.cons_append,
            if_true, if_false, Bool.false_eq_true] at hin
          subst hin
          obtain ⟨ax, hax⟩ := Option.isSome_iff_exists.mp hb.1
          obtain ⟨ay, hay⟩ := Option.isSome_iff_exists.mp hb.2
          have e1 := getNextToken_ident (s := (⟨ds ++ '-' :: (es ++ ';' :: rest), none, vars, ca, lc, asm⟩ : St))
            (l := ds) (d := '-') rfl rfl hwf.1 (by decide)
          have e2 := getNextToken_single (s := (⟨'-' :: (es ++ ';' :: rest), none, vars, ca, lc, asm⟩ : St))
            (c := '-') rfl rfl (by decide) (by decide) (by decide) (by decide)
          have e3 := getVarAddress_found (s := (⟨es ++ ';' :: rest, none, vars, ca, lc, asm⟩ : St)) hax
          have e4 := getNextToken_ident (s := (⟨es ++ ';' :: rest, none, vars, ca, lc, asm ++ ["LDA " ++ toString ax]⟩ : St))
            (l := es) (d := ';') rfl rfl hwf.2 (by decide)
          have e5 := getVarAddress_found (s := (⟨';' :: rest, none, vars, ca, lc, asm ++ ["LDA " ++ toString ax]⟩ : St)) hay
          have e6 := getVarAddress_found (s := (⟨';' :: rest, none, vars, ca, lc, asm ++ ["LDA " ++ toString ax, "SUB " ++ toString ay]⟩ : St)) hT
          simp [compileExpression, e1, e2, e3, e4, e5, e6, emit, ungetToken, singleType,
            spec_exprFinal, spec_exprLines, spec_loadLine, spec_opLine, addrOf, hax, hay]

/-- A successful expression compilation only appends output lines and
never decreases the label counter. -/
theorem compileExpression_ok_grows {T : String} {s s' : St}
    (h : compileExpression T s = Except.ok s') : Grows s s' := by
  obtain ⟨t1, s1, hg1⟩ : ∃ x y, getNextToken s = (x, y) := ⟨_, _, rfl⟩
  have G1 : Grows s s1 := by
    have hx := grows_getNextToken s
    rw [hg1] at hx
    exact hx
  simp only [compileExpression, hg1] at h
  split at h
  · obtain ⟨op, s3, hg2⟩ : ∃ x y, getNextToken (emit ("LDI " ++ t1.text) s1) = (x, y) :=
      ⟨_, _, rfl⟩
    have G2 : Grows s1 s3 := by
      have hx := grows_getNextToken (emit ("LDI " ++ t1.text) s1)
      rw [hg2] at hx
      exact (grows_emit _ _).trans hx
    simp only [hg2] at h
    split at h
    · obtain ⟨rhs, s4, hg3⟩ : ∃ x y, getNextToken s3 = (x, y) := ⟨_, _, rfl⟩
      have G3 : Grows s3 s4 := by
        have hx := grows_getNextToken s3
        rw [hg3] at hx
        exact hx
      simp only [hg3] at h
      split at h
      · split at h
        next aT s6 heq =>
          simp only [Except.ok.injEq] at h
          subst h
          exact (((G1.trans G2).trans G3).trans
            ((grows_emit _ _).trans (grows_getVarAddress heq))).trans (grows_emit _ _)
        next e heq => simp at h
      · split at h
        · split at h
          next a s5 heq =>
            split at h
            next aT s7 heq2 =>
              simp only [Except.ok.injEq] at h
              subst h
              exact ((((G1.trans G2).trans G3).trans (grows_getVarAddress heq)).trans
                ((grows_emit _ _).trans (grows_getVarAddress heq2))).trans (grows_emit _ _)
            next e heq2 => simp at h
          next e heq => simp at h
        · simp at h
    · split at h
      next aT s5 heq =>
        simp only [Except.ok.injEq] at h
        subst h
        exact ((G1.trans G2).trans
          ((grows_ungetToken _ _).trans (grows_getVarAddress heq))).trans (grows_emit _ _)
      next e heq => simp at h
  · split at h
    · obtain ⟨op, s2, hg2⟩ : ∃ x y, getNextToken s1 = (x, y) := ⟨_, _, rfl⟩
      have G2 : Grows s1 s2 := by
        have hx := grows_getNextToken s1
        rw [hg2] at hx
        exact hx
      simp only [hg2] at h
      split at h
      · split at h
        next a s3 heq =>
          obtain ⟨rhs, s5, hg3⟩ : ∃ x y, getNextToken (emit ("LDA " ++ toString a) s3) = (x, y) :=
            ⟨_, _, rfl⟩
          have G3 : Grows s3 s5 := by
            have hx := grows_getNextToken (emit ("LDA " ++ toString a) s3)
            rw [hg3] at hx
            exact (grows_emit _ _).trans hx
          simp only [hg3] at h
          split at h
          · split at h
            next aT s7 heq2 =>
              simp only [Except.ok.injEq] at h
              subst h
              exact ((((G1.trans G2).trans (grows_getVarAddress heq)).trans G3).trans
                ((grows_emit _ _).trans (grows_getVarAddress heq2))).trans (grows_emit _ _)
            next e heq2 => simp at h
          · split at h
            · split at h
              next a2 s6 heq2 =>
                split at h
                next aT s8 heq3 =>
                  simp only [Except.ok.injEq] at h
                  subst h
                  exact (((((G1.trans G2).trans (grows_getVarAddress heq)).trans G3).trans
                    (grows_getVarAddress heq2)).trans
                    ((grows_emit _ _).trans (grows_getVarAddress heq3))).trans (grows_emit _ _)
                next e heq3 => simp at h
              next e heq2 => simp at h
            · simp at h
        next e heq => simp at h
      · split at h
        next a s3 heq =>
          split at h
          next aT s5 heq2 =>
            simp only [Except.ok.injEq] at h
            subst h
            exact ((G1.trans G2).trans ((grows_getVarAddress heq).trans
              ((grows_emit _ _).trans ((grows_getVarAddress heq2).trans
                (grows_emit _ _))))).trans (grows_ungetToken _ _)
          next e heq2 => simp at h
        next e heq => simp at h
    · simp at h

theorem compileStep_zero (m : Mode) (s : St) :
    compileStep 0 m s = Except.error CompErr.fuelOut := rfl

theorem intDecl_grows {s1 s' : St} (h : intDecl s1 = Except.ok s') : Grows s1 s' := by
  obtain ⟨t2, s2, hg2⟩ : ∃ x y, getNextToken s1 = (x, y) := ⟨_, _, rfl⟩
  have G2 : Grows s1 s2 := by
    have hx := grows_getNextToken s1
    rw [hg2] at hx
    exact hx
  simp only [intDecl, hg2] at h
  split at h
  · split at h
    next a s3 heq =>
      obtain ⟨t3, s4, hg3⟩ : ∃ x y, getNextToken s3 = (x, y) := ⟨_, _, rfl⟩
      have G3 : Grows s3 s4 := by
        have hx := grows_getNextToken s3
        rw [hg3] at hx
        exact hx
      simp only [hg3] at h
      split at h
      · simp only [Except.ok.injEq] at h
        subst h
        exact (G2.trans (grows_getVarAddress heq)).trans G3
      · simp at h
    next e heq => simp at h
  · simp at h

theorem assignStmt_grows {v : String} {s1 s' : St}
    (h : assignStmt v s1 = Except.ok s') : Grows s1 s' := by
  obtain ⟨t2, s2, hg2⟩ : ∃ x y, getNextToken s1 = (x, y) := ⟨_, _, rfl⟩
  have G2 : Grows s1 s2 := by
    have hx := grows_getNextToken s1
    rw [hg2] at hx
    exact hx
  simp only [assignStmt, hg2] at h
  split at h
  · split at h
    next s3 heq =>
      obtain ⟨t3, s4, hg3⟩ : ∃ x y, getNextToken s3 = (x, y) := ⟨_, _, rfl⟩
      have G3 : Grows s3 s4 := by
        have hx := grows_getNextToken s3
        rw [hg3] at hx
        exact hx
      simp only [hg3] at h
      split at h
      · simp only [Except.ok.injEq] at h
        subst h
        exact (G2.trans (compileExpression_ok_grows heq)).trans G3
      · simp at h
    next e heq => simp at h
  · simp at h

theorem ifCodegen_grows {k : Mode → St → Except CompErr St} {lhs rhs : Token} {s7 s' : St}
    (hk : ∀ t t', k Mode.ifBody t = Except.ok t' → Grows t t')
    (h : ifCodegen k lhs rhs s7 = Except.ok s') : Grows s7 s' := by
  simp only [ifCodegen] at h
  split at h
  next aL s9 heq8 =>
    have G8 : Grows s7 s9 := (grows_labelBump s7 2).trans (grows_getVarAddress heq8)
    split at h
    next s11 heq9 =>
      have G9 : Grows s9 s11 := by
        split at heq9
        · simp only [Except.ok.injEq] at heq9
          subst heq9
          exact (grows_emit _ _).trans (grows_emit _ _)
        · split at heq9
          next aR sr heq10 =>
            simp only [Except.ok.injEq] at heq9
            subst heq9
            exact ((grows_emit _ _).trans (grows_getVarAddress heq10)).trans (grows_emit _ _)
          next e heq10 => simp at heq9
      split at h
      next s15 heq11 =>
        have G10 : Grows s11 s15 :=
          ((grows_emit _ _).trans ((grows_emit _ _).trans (grows_emit _ _))).trans
            (hk _ _ heq11)
        simp only [Except.ok.injEq] at h
        subst h
        exact ((G8.trans G9).trans G10).trans (grows_emit _ _)
      next e heq11 => simp at h
    next e heq9 => simp at h
  next e heq8 => simp at h

theorem ifStmt_grows {k : Mode → St → Except CompErr St} {s1 s' : St}
    (hk : ∀ t t', k Mode.ifBody t = Except.ok t' → Grows t t')
    (h : ifStmt k s1 = Except.ok s') : Grows s1 s' := by
  obtain ⟨t2, s2, hg2⟩ : ∃ x y, getNextToken s1 = (x, y) := ⟨_, _, rfl⟩
  have G2 : Grows s1 s2 := by
    have hx := grows_getNextToken s1
    rw [hg2] at hx
    exact hx
  simp only [ifStmt, hg2] at h
  split at h
  · obtain ⟨lhs, s3, hg3⟩ : ∃ x y, getNextToken s2 = (x, y) := ⟨_, _, rfl⟩
    have G3 : Grows s2 s3 := by
      have hx := grows_getNextToken s2
      rw [hg3] at hx
      exact hx
    simp only [hg3] at h
    split at h
    · obtain ⟨op, s4, hg4⟩ : ∃ x y, getNextToken s3 = (x, y) := ⟨_, _, rfl⟩
      have G4 : Grows s3 s4 := by
        have hx := grows_getNextToken s3
        rw [hg4] at hx
        exact hx
      simp only [hg4] at h
      split at h
      · obtain ⟨rhs, s5, hg5⟩ : ∃ x y, getNextToken s4 = (x, y) := ⟨_, _, rfl⟩
        have G5 : Grows s4 s5 := by
          have hx := grows_getNextToken s4
          rw [hg5] at hx
          exact hx
        simp only [hg5] at h
        split at h
        · obtain ⟨t3, s6, hg6⟩ : ∃ x y, getNextToken s5 = (x, y) := ⟨_, _, rfl⟩
          have G6 : Grows s5 s6 := by
            have hx := grows_getNextToken s5
            rw [hg6] at hx
            exact hx
          simp only [hg6] at h
          split at h
          · obtain ⟨t4, s7, hg7⟩ : ∃ x y, getNextToken s6 = (x, y) := ⟨_, _, rfl⟩
            have G7 : Grows s6 s7 := by
              have hx := grows_getNextToken s6
              rw [hg7] at hx
              exact hx
            simp only [hg7] at h
            split at h
            · exact (((((G2.trans G3).trans G4).trans G5).trans G6).trans G7).trans
                (ifCodegen_grows hk h)
            · simp at h
          · simp at h
        · simp at h
      · simp at h
    · simp at h
  · simp at h

/-- Every successful parsing step only appends output lines and never
decreases the label counter (the spec's append-only output and
monotone-label invariants). -/
theorem compileStep_grows :
    ∀ (fuel : Nat) (m : Mode) (s s' : St),
      compileStep fuel m s = Except.ok s' → Grows s s' := by
  intro fuel
  induction fuel with
  | zero =>
    intro m s s' h
    rw [compileStep_zero] at h
    simp at h
  | succ n ih =>
    intro m s s' h
    obtain ⟨t1, s1, hg1⟩ : ∃ x y, getNextToken s = (x, y) := ⟨_, _, rfl⟩
    have G1 : Grows s s1 := by
      have hx := grows_getNextToken s
      rw [hg1] at hx
      exact hx
    cases m with
    | statement =>
      rw [compileStep_succ_statement] at h
      simp only [stmtBody, hg1] at h
      split at h
      · simp only [Except.ok.injEq] at h
        subst h
        exact G1
      · split at h
        · exact G1.trans (intDecl_grows h)
        · split at h
          · exact G1.trans (assignStmt_grows h)
          · split at h
            · exact G1.trans (ifStmt_grows (fun t t' hh => ih Mode.ifBody t t' hh) h)
            · split at h
              · simp only [Except.ok.injEq] at h
                subst h
                exact G1
              · split at h
                · simp only [Except.ok.injEq] at h
                  subst h
                  exact G1.trans (grows_ungetToken _ _)
                · simp at h
    | ifBody =>
      rw [compileStep_succ_ifBody] at h
      simp only [ifBodyBody, hg1] at h
      split at h
      · simp only [Except.ok.injEq] at h
        subst h
        exact G1
      · split at h
        · simp at h
        · split at h
          next s2 heq =>
            have G2 : Grows s1 s2 :=
              (grows_ungetToken t1 s1).trans (ih Mode.statement _ _ heq)
            exact (G1.trans G2).trans (ih Mode.ifBody _ _ h)
          next e heq => simp at h

/-- The source characters of a well-formed `if` header followed by the
block body and whatever comes after: `if(lhs==rhs)\x7b` ++ rest. -/
def renderIf (lhs : List Char) (rhs : Operand) (rest : List Char) : List Char :=
  'i' :: 'f' :: '(' :: (lhs ++ '=' :: '=' :: (operandChars rhs ++ ')' :: '\x7b' :: rest))

/-- Transcribed from the spec's `if` codegen: the comparison line,
`SUBI rhs` for a NUMBER right-hand side and `SUB a_rhs` for an
IDENTIFIER one. -/
def spec_condLine (s : St) : Operand → String
  | Operand.num ds => "SUBI " ++ ds.asString
  | Operand.var ds => "SUB " ++ toString (addrOf s ds)

/-- Transcribed from the spec's `if` codegen: the five header lines
`LDA a_lhs`; `SUBI rhs`/`SUB a_rhs`; `JZ Ltrue`; `JMP Lend`; `Ltrue:`,
with the label pair taken from the current label counter. -/
def ifHeaderLines (s : St) (aL : Nat) (rhs : Operand) : List String :=
  ["LDA " ++ toString aL, spec_condLine s rhs,
   "JZ " ++ labelName s.labelCount, "JMP " ++ labelName (s.labelCount + 1),
   labelName s.labelCount ++ ":"]

/-- The compiler state right after the `if` header has been compiled:
input at the body, label counter advanced by 2, the five header lines
appended. -/
def ifMidState (s : St) (aL : Nat) (rhs : Operand) (rest : List Char) : St :=
  { s with input := rest, pushback := none,
           labelCount := s.labelCount + 2,
           asm := s.asm ++ ifHeaderLines s aL rhs }

/-- Scanning the keyword `if` followed by a non-alphanumeric character. -/
theorem getNextToken_kw_if {s : St} {d : Char} {rest : List Char}
    (hpb : s.pushback = none) (hin : s.input = 'i' :: 'f' :: d :: rest)
    (hd : d.isAlphanum = false) :
    getNextToken s =
      ({ type := TokenType.IF, text := "if" }, { s with input := d :: rest, pushback := none }) := by
  obtain ⟨inp, pb, vars, ca, lc, asm⟩ := s
  dsimp at hpb hin
  subst hpb; subst hin
  have h1 : List.dropWhile Char.isWhitespace ('i' :: 'f' :: d :: rest) =
      'i' :: 'f' :: d :: rest :=
    List.dropWhile_cons_of_neg (by decide)
  have h2 : List.takeWhile Char.isAlphanum ('f' :: d :: rest) = ['f'] := by
    rw [List.takeWhile_cons_of_pos (by decide), List.takeWhile_cons_of_neg (by simp [hd])]
  have h3 : List.dropWhile Char.isAlphanum ('f' :: d :: rest) = d :: rest := by
    rw [List.dropWhile_cons_of_pos (by decide), List.dropWhile_cons_of_neg (by simp [hd])]
  have h4 : (['i', 'f'] : List Char).asString = "if" := rfl
  have h5 : (['i', 'f'] : List Char).asString ≠ "int" := by decide
  simp [getNextToken, h1, h2, h3, MAX_TOKEN_LEN, h4, h5]

/-- The `if` codegen shape, proved against the compiler: given a
well-formed header whose left-hand side resolves to `aL` (and whose
variable right-hand side, if any, is bound), and given that the body loop
starting from the mid-state succeeds with `sB`, one statement step
consumes the construct and produces `sB` with the end-label line
appended. -/
theorem compileStep_if_shape (fuel : Nat) (s : St) (lhs : List Char) (rhs : Operand)
    (aL : Nat) (rest : List Char) (sB : St)
    (hpb : s.pushback = none)
    (hin : s.input = renderIf lhs rhs rest)
    (hl : isIdentCharsB lhs = true)
    (hwf : wfOperandB rhs = true)
    (ha : lookupVar s lhs.asString = some aL)
    (hb : boundOperandB s rhs = true)
    (hbody : compileStep fuel Mode.ifBody (ifMidState s aL rhs rest) = Except.ok sB) :
    compileStep (fuel + 1) Mode.statement s =
      Except.ok (emit (labelName (s.labelCount + 1) ++ ":") sB) := by
  obtain ⟨inp, pb, vars, ca, lc, asm⟩ := s
  dsimp at hpb hin
  subst hpb
  cases rhs with
  | num es =>
    simp only [renderIf, operandChars] at hin
    subst hin
    simp only [ifMidState, ifHeaderLines, spec_condLine] at hbody
    have t1 := getNextToken_kw_if
      (s := (⟨'i' :: 'f' :: '(' :: (lhs ++ '=' :: '=' :: (es ++ ')' :: '\x7b' :: rest)),
        none, vars, ca, lc, asm⟩ : St)) rfl rfl (by decide)
    have t2 := getNextToken_single
      (s := (⟨'(' :: (lhs ++ '=' :: '=' :: (es ++ ')' :: '\x7b' :: rest)),
        none, vars, ca, lc, asm⟩ : St))
      (c := '(') rfl rfl (by decide) (by decide) (by decide) (by decide)
    have t3 := getNextToken_ident
      (s := (⟨lhs ++ '=' :: '=' :: (es ++ ')' :: '\x7b' :: rest),
        none, vars, ca, lc, asm⟩ : St))
      (l := lhs) (d := '=') rfl rfl hl (by decide)
    have t4 := getNextToken_equal
      (s := (⟨'=' :: '=' :: (es ++ ')' :: '\x7b' :: rest), none, vars, ca, lc, asm⟩ : St))
      rfl rfl
    have t5 := getNextToken_number
      (s := (⟨es ++ ')' :: '\x7b' :: rest, none, vars, ca, lc, asm⟩ : St))
      (l := es) (d := ')') rfl rfl hwf (by decide)
    have t6 := getNextToken_single
      (s := (⟨')' :: '\x7b' :: rest, none, vars, ca, lc, asm⟩ : St))
      (c := ')') rfl rfl (by decide) (by decide) (by decide) (by decide)
    have t7 := getNextToken_single
      (s := (⟨'\x7b' :: rest, none, vars, ca, lc, asm⟩ : St))
      (c := '\x7b') rfl rfl (by decide) (by decide) (by decide) (by decide)
    have e8 := getVarAddress_found (s := (⟨rest, none, vars, ca, lc + 2, asm⟩ : St)) ha
    simp [compileStep_succ_statement, stmtBody, ifStmt, ifCodegen,
      t1, t2, t3, t4, t5, t6, t7, e8, hbody, emit, singleType]
  | var es =>
    simp only [renderIf, operandChars] at hin
    subst hin
    obtain ⟨ay, hay⟩ := Option.isSome_iff_exists.mp hb
    simp only [ifMidState, ifHeaderLines, spec_condLine, addrOf, hay,
      Option.getD_some] at hbody
    have t1 := getNextToken_kw_if
      (s := (⟨'i' :: 'f' :: '(' :: (lhs ++ '=' :: '=' :: (es ++ ')' :: '\x7b' :: rest)),
        none, vars, ca, lc, asm⟩ : St)) rfl rfl (by decide)
    have t2 := getNextToken_single
      (s := (⟨'(' :: (lhs ++ '=' :: '=' :: (es ++ ')' :: '\x7b' :: rest)),
        none, vars, ca, lc, asm⟩ : St))
      (c := '(') rfl rfl (by decide) (by decide) (by decide) (by decide)
    have t3 := getNextToken_ident
      (s := (⟨lhs ++ '=' :: '=' :: (es ++ ')' :: '\x7b' :: rest),
        none, vars, ca, lc, asm⟩ : St))
      (l := lhs) (d := '=') rfl rfl hl (by decide)
    have t4 := getNextToken_equal
      (s := (⟨'=' :: '=' :: (es ++ ')' :: '\x7b' :: rest), none, vars, ca, lc, asm⟩ : St))
      rfl rfl
    have t5 := getNextToken_ident
      (s := (⟨es ++ ')' :: '\x7b' :: rest, none, vars, ca, lc, asm⟩ : St))
      (l := es) (d := ')') rfl rfl hwf (by decide)
    have t6 := getNextToken_single
      (s := (⟨')' :: '\x7b' :: rest, none, vars, ca, lc, asm⟩ : St))
      (c := ')') rfl rfl (by decide) (by decide) (by decide) (by decide)
    have t7 := getNextToken_single
      (s := (⟨'\x7b' :: rest, none, vars, ca, lc, asm⟩ : St))
      (c := '\x7b') rfl rfl (by decide) (by decide) (by decide) (by decide)
    have e8 := getVarAddress_found (s := (⟨rest, none, vars, ca, lc + 2, asm⟩ : St)) ha
    have e9 := getVarAddress_found
      (s := (⟨rest, none, vars, ca, lc + 2, asm ++ ["LDA " ++ toString aL]⟩ : St)) hay
    simp [compileStep_succ_statement, stmtBody, ifStmt, ifCodegen,
      t1, t2, t3, t4, t5, t6, t7, e8, e9, hbody, emit, singleType]

/-- Claim C2: for every assignment right-hand side compiled by
`compileExpression` with bound target `T` at address `aT`, the emitted
instructions follow the six-case table (`LDI n`/`LDA a_v`, then on a
PLUS/MINUS lookahead `ADDI m`/`SUBI m`/`ADD a_w`/`SUB a_w`, then
`STA aT`), the operator lookahead being consumed exactly when it is
PLUS/MINUS and pushed back unconsumed otherwise. -/
theorem C2_expression_codegen_table (e : ExprSrc) (T : String) (aT : Nat) (s : St)
    (rest : List Char)
    (hpb : s.pushback = none)
    (hin : s.input = renderExpr e ++ ';' :: rest)
    (hwf : wfExprB e = true)
    (hb : boundExprB s e = true)
    (hT : lookupVar s T = some aT) :
    compileExpression T s = Except.ok (spec_exprFinal s aT rest e) :=
  compileExpression_shape e T aT s rest hpb hin hwf hb hT

/-- Concrete state for C2's witness: compiling `x = y + 3;`'s right-hand
side with `x` at 16, `y` at 17. -/
def wtStC2 : St :=
  { input := ('y' :: '+' :: '3' :: ';' :: []), pushback := none,
    vars := [("x", 16), ("y", 17)], currentAddress := 18, labelCount := 0, asm := [] }

theorem C2_witness :
    compileExpression ("x") wtStC2 =
      Except.ok (spec_exprFinal wtStC2 16 []
        (ExprSrc.binop (Operand.var ['y']) true (Operand.num ['3']))) :=
  C2_expression_codegen_table
    (ExprSrc.binop (Operand.var ['y']) true (Operand.num ['3']))
    ("x") 16 wtStC2 [] rfl rfl (by decide) (by decide) rfl

/-- Claim C3: for every well-formed `if` construct whose condition
left-hand side resolves to `aL`, the compiler allocates the label pair
from the counter and emits, in order, `LDA aL`, the comparison
(`SUBI`/`SUB`), `JZ Ltrue`, `JMP Lend`, the bare line `Ltrue:`, then the
lines emitted by the body statements parsed until the closing brace, then
the bare line `Lend:`. -/
theorem C3_if_construct_shape (fuel : Nat) (s : St) (lhs : List Char) (rhs : Operand)
    (aL : Nat) (rest : List Char) (sB : St)
    (hpb : s.pushback = none)
    (hin : s.input = renderIf lhs rhs rest)
    (hl : isIdentCharsB lhs = true)
    (hwf : wfOperandB rhs = true)
    (ha : lookupVar s lhs.asString = some aL)
    (hb : boundOperandB s rhs = true)
    (hbody : compileStep fuel Mode.ifBody (ifMidState s aL rhs rest) = Except.ok sB) :
    ∃ bodyLines,
      sB.asm = s.asm ++ ifHeaderLines s aL rhs ++ bodyLines ∧
      compileStep (fuel + 1) Mode.statement s =
        Except.ok { sB with asm := (s.asm ++ ifHeaderLines s aL rhs ++ bodyLines ++
          [labelName (s.labelCount + 1) ++ ":"]) } := by
  obtain ⟨_, l, hasm⟩ := compileStep_grows fuel Mode.ifBody _ _ hbody
  refine ⟨l, hasm, ?_⟩
  have h := compileStep_if_shape fuel s lhs rhs aL rest sB hpb hin hl hwf ha hb hbody
  rw [h]
  simp [emit, hasm, ifMidState, List.append_assoc]

/-- Concrete state for C3's witness: `if(x==5)\x7bx=2;\x7d` with `x` at
16, label counter 0. -/
def wtStC3 : St :=
  { input := ("if(x==5)\x7bx=2;\x7d").data, pushback := none,
    vars := [("x", 16)], currentAddress := 17, labelCount := 0, asm := [] }

/-- The state after C3's witness body loop: the header lines plus the
body's `LDI 2`, `STA 16`. -/
def wtStC3B : St :=
  { input := [], pushback := none, vars := [("x", 16)], currentAddress := 17,
    labelCount := 2,
    asm := ["LDA 16", "SUBI 5", "JZ L0", "JMP L1", "L0:", "LDI 2", "STA 16"] }

theorem C3_witness :
    ∃ bodyLines,
      wtStC3B.asm = wtStC3.asm ++ ifHeaderLines wtStC3 16 (Operand.num ['5']) ++ bodyLines ∧
      compileStep (10 + 1) Mode.statement wtStC3 =
        Except.ok { wtStC3B with asm := (wtStC3.asm ++
          ifHeaderLines wtStC3 16 (Operand.num ['5']) ++ bodyLines ++
          [labelName (wtStC3.labelCount + 1) ++ ":"]) } :=
  C3_if_construct_shape 10 wtStC3 ['x'] (Operand.num ['5']) 16 (("x=2;\x7d").data) wtStC3B
    rfl rfl (by decide) (by decide) rfl (by decide) rfl

/-- The symbol-table invariant: distinct names are bound to distinct
addresses, all below the next-free-address counter. -/
def addrInv (s : St) : Prop :=
  s.vars.Pairwise (fun v w => v.1 ≠ w.1 ∧ v.2 ≠ w.2) ∧
    ∀ v ∈ s.vars, v.2 < s.currentAddress

/-- Claim C4: resolving a name returns its bound address unchanged if
present, otherwise binds it to the current next-free address (16 for the
first) and increments the counter; this preserves name/address
distinctness, and on `x = 1; y = x + 2;` allocates x→16, y→17 and emits
`LDI 1`, `STA 16`, `LDA 16`, `ADDI 2`, `STA 17`. -/
theorem C4_address_allocation :
    (∀ (s : St) (n : String) (a : Nat),
      lookupVar s n = some a → getVarAddress n s = Except.ok (a, s)) ∧
    (∀ (s : St) (n : String),
      lookupVar s n = none → s.vars.length < MAX_VARS →
      getVarAddress n s = Except.ok (s.currentAddress,
        { s with vars := s.vars ++ [(n, s.currentAddress)],
                 currentAddress := s.currentAddress + 1 })) ∧
    (∀ (s : St) (n : String) (a : Nat) (s' : St),
      addrInv s → getVarAddress n s = Except.ok (a, s') → addrInv s') ∧
    compileSt ("x = 1; y = x + 2;") = Except.ok
      { input := [], pushback := none, vars := [("x", 16), ("y", 17)],
        currentAddress := 18, labelCount := 0,
        asm := ["LDI 1", "STA 16", "LDA 16", "ADDI 2", "STA 17"] } := by
  refine ⟨fun s n a h => getVarAddress_found h,
    fun s n h1 h2 => getVarAddress_new h1 h2, ?_, by rfl⟩
  intro s n a s' hinv h
  rcases getVarAddress_ok_cases h with h1 | h1
  · rw [h1.1]
    exact hinv
  · obtain ⟨hs', ha', hnone⟩ := h1
    subst hs'
    have hnames : ∀ v ∈ s.vars, (v.1 == n) = false := by
      intro v hv
      have := List.find?_eq_none.mp (Option.map_eq_none'.mp hnone) v hv
      simpa using this
    constructor
    · rw [List.pairwise_append]
      refine ⟨hinv.1, by simp, ?_⟩
      intro v hv b hb
      simp only [List.mem_singleton] at hb
      subst hb
      refine ⟨?_, Nat.ne_of_lt (hinv.2 v hv)⟩
      have := hnames v hv
      simpa using this
    · intro v hv
      rcases List.mem_append.mp hv with hm | hm
      · exact Nat.lt_succ_of_lt (hinv.2 v hm)
      · simp only [List.mem_singleton] at hm
        subst hm
        exact Nat.lt_succ_self _

theorem C4_witness :
    getVarAddress ("x") (⟨[], none, [("x", 16)], 17, 0, []⟩ : St) =
      Except.ok (16, (⟨[], none, [("x", 16)], 17, 0, []⟩ : St)) :=
  C4_address_allocation.1 _ _ _ rfl

/-- Claim C5: the label counter starts at 0 in a fresh state, never
decreases across any successful parsing step, and each `if` construct
takes exactly the two consecutive values `s.labelCount` and
`s.labelCount + 1` for its label pair (visible in `ifMidState`'s header
lines and the emitted end label), advancing the counter by 2 before the
body so later labels are strictly larger. -/
theorem C5_label_allocation :
    (∀ src, (initSt src).labelCount = 0) ∧
    (∀ (fuel : Nat) (m : Mode) (s s' : St),
      compileStep fuel m s = Except.ok s' → s.labelCount ≤ s'.labelCount) ∧
    (∀ (fuel : Nat) (s : St) (lhs : List Char) (rhs : Operand)
        (aL : Nat) (rest : List Char) (sB : St),
      s.pushback = none → s.input = renderIf lhs rhs rest →
      isIdentCharsB lhs = true → wfOperandB rhs = true →
      lookupVar s lhs.asString = some aL → boundOperandB s rhs = true →
      compileStep fuel Mode.ifBody (ifMidState s aL rhs rest) = Except.ok sB →
      compileStep (fuel + 1) Mode.statement s =
          Except.ok (emit (labelName (s.labelCount + 1) ++ ":") sB) ∧
        (ifMidState s aL rhs rest).labelCount = s.labelCount + 2 ∧
        s.labelCount + 2 ≤ (emit (labelName (s.labelCount + 1) ++ ":") sB).labelCount) := by
  refine ⟨fun src => rfl,
    fun fuel m s s' h => (compileStep_grows fuel m s s' h).1, ?_⟩
  intro fuel s lhs rhs aL rest sB hpb hin hl hwf ha hb hbody
  refine ⟨compileStep_if_shape fuel s lhs rhs aL rest sB hpb hin hl hwf ha hb hbody,
    rfl, ?_⟩
  have := (compileStep_grows fuel Mode.ifBody _ _ hbody).1
  simpa [ifMidState, emit] using this

/-- Concrete state for C5's witness: `if(x==x)\x7b\x7d` with label
counter 4, so the pair L4/L5 is taken. -/
def wtStC5 : St :=
  { input := ("if(x==x)\x7b\x7d").data, pushback := none,
    vars := [("x", 16)], currentAddress := 17, labelCount := 4, asm := [] }

/-- The state after C5's witness body loop (empty body). -/
def wtStC5B : St :=
  { input := [], pushback := none, vars := [("x", 16)], currentAddress := 17,
    labelCount := 6, asm := ["LDA 16", "SUB 16", "JZ L4", "JMP L5", "L4:"] }

theorem C5_witness :
    compileStep (3 + 1) Mode.statement wtStC5 =
        Except.ok (emit (labelName (wtStC5.labelCount + 1) ++ ":") wtStC5B) ∧
      (ifMidState wtStC5 16 (Operand.var ['x']) (("\x7d").data)).labelCount =
        wtStC5.labelCount + 2 ∧
      wtStC5.labelCount + 2 ≤
        (emit (labelName (wtStC5.labelCount + 1) ++ ":") wtStC5B).labelCount :=
  C5_label_allocation.2.2 3 wtStC5 ['x'] (Operand.var ['x']) 16 (("\x7d").data) wtStC5B
    rfl rfl (by decide) (by decide) rfl (by decide) rfl

/-- A program with 100 distinct `int` declarations `v0..v99`. -/
def prog100 : String :=
  String.join ((List.range 100).map (fun i => "int v" ++ toString i ++ ";"))

/-- A program with 101 distinct `int` declarations `v0..v100`. -/
def prog101 : String :=
  String.join ((List.range 101).map (fun i => "int v" ++ toString i ++ ";"))

/-- Claim C8: with the 100-slot symbol table, an unseen name resolves
successfully while the table has room, and fails with the fatal
CapacityError when the table is full; concretely, 100 distinct
declarations compile (filling the table), and the 101st distinct name
aborts the whole compilation with CapacityError, so nothing further is
emitted. -/
theorem C8_variable_capacity :
    (∀ (s : St) (n : String),
      lookupVar s n = none → MAX_VARS ≤ s.vars.length →
      getVarAddress n s = Except.error CompErr.capacityError) ∧
    (∀ (s : St) (n : String),
      lookupVar s n = none → s.vars.length < MAX_VARS →
      ∃ s', getVarAddress n s = Except.ok (s.currentAddress, s')) ∧
    Except.map (fun st => st.vars.length) (compileSt prog100) = Except.ok 100 ∧
    compileSt prog101 = Except.error CompErr.capacityError := by
  refine ⟨fun s n h1 h2 => getVarAddress_full h1 h2,
    fun s n h1 h2 => ⟨_, getVarAddress_new h1 h2⟩, ?_, ?_⟩ <;> rfl

/-- A full symbol table with 100 distinct names `v0..v99`. -/
def fullVarsSt : St :=
  { input := [], pushback := none,
    vars := (List.range MAX_VARS).map (fun i => ("v" ++ toString i, 16 + i)),
    currentAddress := 116, labelCount := 0, asm := [] }

theorem C8_witness :
    getVarAddress ("w") fullVarsSt = Except.error CompErr.capacityError :=
  C8_variable_capacity.1 fullVarsSt ("w") (by rfl) (by rfl)

/-- Claim C9: scanning an identifier (resp. number) consumes all its
alphanumeric (resp. digit) characters from the source but the produced
token text carries only the first `MAX_TOKEN_LEN - 1 = 99` characters of
the spelling; spellings of at most 99 characters are carried in full. -/
theorem C9_token_truncation :
    (∀ (s : St) (c : Char) (body : List Char) (d : Char) (rest : List Char),
      s.pushback = none → s.input = c :: (body ++ d :: rest) →
      c.isAlpha = true → c.isWhitespace = false →
      (∀ x ∈ body, x.isAlphanum = true) → d.isAlphanum = false →
      (getNextToken s).1.text = ((c :: body).take (MAX_TOKEN_LEN - 1)).asString ∧
        (getNextToken s).2.input = d :: rest) ∧
    (∀ (s : St) (c : Char) (body : List Char) (d : Char) (rest : List Char),
      s.pushback = none → s.input = c :: (body ++ d :: rest) →
      c.isDigit = true → c.isAlpha = false → c.isWhitespace = false →
      (∀ x ∈ body, x.isDigit = true) → d.isDigit = false →
      (getNextToken s).1.text = ((c :: body).take (MAX_TOKEN_LEN - 1)).asString ∧
        (getNextToken s).2.input = d :: rest) ∧
    (∀ (c : Char) (body : List Char),
      (c :: body).length ≤ MAX_TOKEN_LEN - 1 →
      ((c :: body).take (MAX_TOKEN_LEN - 1)).asString = (c :: body).asString) := by
  refine ⟨?_, ?_, ?_⟩
  · intro s c body d rest hpb hin hca hcw hbody hd
    obtain ⟨inp, pb, vars, ca, lc, asm⟩ := s
    dsimp at hpb hin
    subst hpb; subst hin
    have h1 : List.dropWhile Char.isWhitespace (c :: (body ++ d :: rest)) =
        c :: (body ++ d :: rest) :=
      List.dropWhile_cons_of_neg (by simp [hcw])
    have htw : List.takeWhile Char.isAlphanum (body ++ d :: rest) = body :=
      takeWhile_all_append_cons hbody hd
    have hdw : List.dropWhile Char.isAlphanum (body ++ d :: rest) = d :: rest :=
      dropWhile_all_append_cons hbody hd
    constructor
    · simp [getNextToken, h1, hca, htw, MAX_TOKEN_LEN, List.take_succ_cons]
    · simp [getNextToken, h1, hca, hdw]
  · intro s c body d rest hpb hin hcd hca hcw hbody hd
    obtain ⟨inp, pb, vars, ca, lc, asm⟩ := s
    dsimp at hpb hin
    subst hpb; subst hin
    have h1 : List.dropWhile Char.isWhitespace (c :: (body ++ d :: rest)) =
        c :: (body ++ d :: rest) :=
      List.dropWhile_cons_of_neg (by simp [hcw])
    have htw : List.takeWhile Char.isDigit (body ++ d :: rest) = body :=
      takeWhile_all_append_cons hbody hd
    have hdw : List.dropWhile Char.isDigit (body ++ d :: rest) = d :: rest :=
      dropWhile_all_append_cons hbody hd
    constructor
    · simp [getNextToken, h1, hca, hcd, htw, MAX_TOKEN_LEN, List.take_succ_cons]
    · simp [getNextToken, h1, hca, hcd, hdw]
  · intro c body hlen
    rw [List.take_of_length_le hlen]

/-- Concrete state for C9's witness: a 150-character identifier `aaa…a`
followed by `;`. -/
def wtStC9 : St :=
  { input := 'a' :: (List.replicate 149 'a' ++ ';' :: []), pushback := none,
    vars := [], currentAddress := 16, labelCount := 0, asm := [] }

theorem C9_witness :
    (getNextToken wtStC9).1.text =
        (('a' :: List.replicate 149 'a').take (MAX_TOKEN_LEN - 1)).asString ∧
      (getNextToken wtStC9).2.input = ';' :: [] :=
  C9_token_truncation.1 wtStC9 'a' (List.replicate 149 'a') ';' [] rfl rfl
    (by decide) (by decide) (by decide) (by decide)

/-- Claim C10: NUMBER literals are embedded verbatim (the scanned token
text, leading zeros and out-of-range values included) into the emitted
`LDI`, `ADDI`, `SUBI` operands, with no numeric parsing or range check:
the emitted operand text is exactly the digit string from the source. -/
theorem C10_verbatim_number_operands :
    (∀ (ds : List Char) (T : String) (aT : Nat) (s : St) (rest : List Char),
      s.pushback = none → s.input = ds ++ ';' :: rest → isDigitCharsB ds = true →
      lookupVar s T = some aT →
      compileExpression T s = Except.ok
        { s with input := rest,
                 pushback := some { type := TokenType.SEMICOLON, text := ";" },
                 asm := s.asm ++ ["LDI " ++ ds.asString, "STA " ++ toString aT] }) ∧
    (∀ (ms ds : List Char) (T : String) (aT : Nat) (s : St) (rest : List Char),
      s.pushback = none → s.input = ms ++ '+' :: (ds ++ ';' :: rest) →
      isDigitCharsB ms = true → isDigitCharsB ds = true →
      lookupVar s T = some aT →
      compileExpression T s = Except.ok
        { s with input := ';' :: rest,
                 pushback := none,
                 asm := s.asm ++ ["LDI " ++ ms.asString, "ADDI " ++ ds.asString,
                   "STA " ++ toString aT] }) ∧
    (∀ (ms ds : List Char) (T : String) (aT : Nat) (s : St) (rest : List Char),
      s.pushback = none → s.input = ms ++ '-' :: (ds ++ ';' :: rest) →
      isDigitCharsB ms = true → isDigitCharsB ds = true →
      lookupVar s T = some aT →
      compileExpression T s = Except.ok
        { s with input := ';' :: rest,
                 pushback := none,
                 asm := s.asm ++ ["LDI " ++ ms.asString, "SUBI " ++ ds.asString,
                   "STA " ++ toString aT] }) ∧
    (∀ (fuel : Nat) (s : St) (lhs ds : List Char) (aL : Nat) (rest : List Char) (sB : St),
      s.pushback = none → s.input = renderIf lhs (Operand.num ds) rest →
      isIdentCharsB lhs = true → isDigitCharsB ds = true →
      lookupVar s lhs.asString = some aL →
      compileStep fuel Mode.ifBody (ifMidState s aL (Operand.num ds) rest) =
        Except.ok sB →
      compileStep (fuel + 1) Mode.statement s =
          Except.ok (emit (labelName (s.labelCount + 1) ++ ":") sB) ∧
        (ifMidState s aL (Operand.num ds) rest).asm = s.asm ++
          ["LDA " ++ toString aL, "SUBI " ++ ds.asString,
           "JZ " ++ labelName s.labelCount, "JMP " ++ labelName (s.labelCount + 1),
           labelName s.labelCount ++ ":"]) := by
  refine ⟨?_, ?_, ?_, ?_⟩
  · intro ds T aT s rest hpb hin hwf hT
    have h := compileExpression_shape (ExprSrc.single (Operand.num ds)) T aT s rest
      hpb hin hwf (by rfl) hT
    simpa [spec_exprFinal, spec_exprLines, spec_loadLine] using h
  · intro ms ds T aT s rest hpb hin hm hd hT
    have h := compileExpression_shape (ExprSrc.binop (Operand.num ms) true (Operand.num ds))
      T aT s rest hpb (by simpa [renderExpr, operandChars, List.append_assoc] using hin)
      (by simp [wfExprB, wfOperandB, hm, hd]) (by rfl) hT
    simpa [spec_exprFinal, spec_exprLines, spec_loadLine, spec_opLine] using h
  · intro ms ds T aT s rest hpb hin hm hd hT
    have h := compileExpression_shape (ExprSrc.binop (Operand.num ms) false (Operand.num ds))
      T aT s rest hpb (by simpa [renderExpr, operandChars, List.append_assoc] using hin)
      (by simp [wfExprB, wfOperandB, hm, hd]) (by rfl) hT
    simpa [spec_exprFinal, spec_exprLines, spec_loadLine, spec_opLine] using h
  · intro fuel s lhs ds aL rest sB hpb hin hl hd ha hbody
    refine ⟨compileStep_if_shape fuel s lhs (Operand.num ds) aL rest sB
      hpb hin hl hd ha (by rfl) hbody, ?_⟩
    simp [ifMidState, ifHeaderLines, spec_condLine]

/-- Concrete state for C10's witness: right-hand side `007;` with target
`x` at 16 — the leading zeros survive into the emitted `LDI 007`. -/
def wtStC10 : St :=
  { input := ('0' :: '0' :: '7' :: ';' :: []), pushback := none,
    vars := [("x", 16)], currentAddress := 17, labelCount := 0, asm := [] }

theorem C10_witness :
    compileExpression ("x") wtStC10 = Except.ok
      { wtStC10 with input := [],
                     pushback := some { type := TokenType.SEMICOLON, text := ";" },
                     asm := ["LDI 007", "STA 16"] } :=
  C10_verbatim_number_operands.1 ['0', '0', '7'] ("x") 16 wtStC10 [] rfl rfl
    (by decide) rfl

end SimpleLang
